import Mathlib

/-!
Verification of the Telegram channel adapter (nanobot).

The Python source in src/nanobot/channels/telegram.py is shallowly embedded
here.  Python strings are modelled as `List Char`; fallible or possibly
diverging loops are modelled with explicit fuel returning `Option`; the
side-effecting send path is modelled as a pure function producing a trace of
attempted platform actions.

One floating-point detail: the chunker compares split positions against
`max_length * 0.7`.  The literal `0.7` is the IEEE-754 double
3152519739159347 / 2^52, and the embedding compares the split position
against the exact rational `max_length * (3152519739159347 / 2^52)` by
integer cross-multiplication.  Python additionally rounds the product
`max_length * 0.7` to a double; the two comparisons can only differ when an
integer split position lies within half an ulp of the product, which is not
the case at any input used in the theorems below (all comparisons there are
between small integers at distance at least 1 from the threshold).
-/

namespace Nanobot

/-- Shorthand turning a string literal into the `List Char` the model uses. -/
def cs (s : String) : List Char := s.data

/-- The backtick character, written via its code point. -/
def btick : Char := Char.ofNat 96

/-- Python whitespace as used by `str.strip` and the regex class `\s`
(ASCII range, which covers every input considered here). -/
def pyIsSpace (c : Char) : Bool :=
  c = ' ' || c = '\t' || c = '\n' || c = '\x0d' || c = '\x0b' || c = '\x0c'

/-- ASCII word character, the regex class `\w` on ASCII input. -/
def isWordChar (c : Char) : Bool :=
  ('a' ≤ c && c ≤ 'z') || ('A' ≤ c && c ≤ 'Z') || ('0' ≤ c && c ≤ '9') || c = '_'

/-- ASCII alphanumeric, the regex class `[a-zA-Z0-9]` (no underscore). -/
def isAsciiAlnum (c : Char) : Bool :=
  ('a' ≤ c && c ≤ 'z') || ('A' ≤ c && c ≤ 'Z') || ('0' ≤ c && c ≤ '9')

/-- Does `pat` occur at the head of `s`? -/
def leadsWith : List Char → List Char → Bool
  | [], _ => true
  | _ :: _, [] => false
  | a :: as, b :: bs => a = b && leadsWith as bs

/-- `str.lstrip()` with default whitespace set. -/
def lstripP (s : List Char) : List Char := s.dropWhile pyIsSpace

/-- `str.rstrip()` with default whitespace set. -/
def rstripP (s : List Char) : List Char := (s.reverse.dropWhile pyIsSpace).reverse

/-- `str.strip()` with default whitespace set. -/
def stripP (s : List Char) : List Char := rstripP (lstripP s)

/-- Highest index at which `pat` occurs in `s`, scanning like `str.rfind`;
`none` when absent. -/
def rfindAux (pat : List Char) : List Char → Nat → Option Nat
  | [], _ => none
  | c :: rest, i =>
    match rfindAux pat rest (i + 1) with
    | some j => some j
    | none => if leadsWith pat (c :: rest) then some i else none

/-- Python `str.rfind`: index of the last occurrence, `-1` when absent
(`pat` is nonempty in every use below, matching the source). -/
def rfindP (pat s : List Char) : Int :=
  match rfindAux pat s 0 with
  | some i => (i : Int)
  | none => -1

/-- The IEEE-754 double closest to 0.7 is `point7Num / point7Den`. -/
def point7Num : Int := 3152519739159347

/-- Denominator 2^52 of the double 0.7. -/
def point7Den : Int := 4503599627370496

/-- The comparison `p > maxLength * 0.7` from `_split_long_message`,
performed exactly on the rational value of the double literal 0.7. -/
def gtPoint7 (p : Int) (maxLength : Nat) : Bool :=
  p * point7Den > (maxLength : Int) * point7Num

/-- One match of the regex `<(/?)(\w+)(?:\s[^>]*)?>` at the head of `s`:
returns (is-closing, tag name, rest after the match). -/
def matchTag (s : List Char) : Option (Bool × List Char × List Char) :=
  match s with
  | '<' :: t =>
    let (isClosing, t2) :=
      match t with
      | '/' :: u => (true, u)
      | _ => (false, t)
    let (name, t3) := t2.span isWordChar
    if name = [] then none
    else
      match t3 with
      | '>' :: u => some (isClosing, name, u)
      | c :: u =>
        if pyIsSpace c then
          let (_, t4) := u.span (fun d => d ≠ '>')
          match t4 with
          | '>' :: v => some (isClosing, name, v)
          | _ => none
        else none
      | [] => none
  | _ => none

/-- All matches of the tag regex in order, as `re.finditer` finds them
(leftmost, non-overlapping).  Fuel-driven; `s.length + 1` fuel always
suffices since every step consumes at least one character. -/
def findTagsAux : Nat → List Char → List (Bool × List Char)
  | 0, _ => []
  | _ + 1, [] => []
  | fuel + 1, s@(_ :: rest) =>
    match matchTag s with
    | some (c, n, r) => (c, n) :: findTagsAux fuel r
    | none => findTagsAux fuel rest

/-- `_get_unclosed_tags`: HTML tags opened but not closed, in opening
order.  Closing tags pop only a matching top of stack; `br` and `hr` are
never pushed. -/
def getUnclosedTags (s : List Char) : List (List Char) :=
  (findTagsAux (s.length + 1) s).foldl
    (fun stack tag =>
      if tag.1 then
        if stack.getLast? = some tag.2 then stack.dropLast else stack
      else
        if tag.2 = cs "br" ∨ tag.2 = cs "hr" then stack else stack ++ [tag.2])
    []

/-- `_adjust_split_for_html_tags`: pull the split position back to the last
unmatched `<` when the position falls inside a tag. -/
def adjustSplitForHtmlTags (text : List Char) (splitPos : Nat) : Nat :=
  let pre := text.take splitPos
  let lastOpen := rfindP (cs "<") pre
  let lastClose := rfindP (cs ">") pre
  if lastOpen > lastClose then lastOpen.toNat else splitPos

/-- The string `''.join(f'</{tag}>' for tag in reversed(unclosed_tags))`. -/
def closeTagsStr (tags : List (List Char)) : List Char :=
  tags.reverse.foldr (fun t acc => '<' :: '/' :: t ++ '>' :: acc) []

/-- The string `''.join(f'<{tag}>' for tag in unclosed_tags)`. -/
def openTagsStr (tags : List (List Char)) : List Char :=
  tags.foldr (fun t acc => '<' :: t ++ '>' :: acc) []

/-- One iteration of the `while len(remaining) > max_length` loop of
`_split_long_message`: returns the chunk appended and the new remainder. -/
def splitStep (remaining : List Char) (maxLength : Nat) : List Char × List Char :=
  let chunk := remaining.take maxLength
  let sp0 : Int :=
    let p0 := rfindP (cs "\n\n") chunk
    if gtPoint7 p0 maxLength then p0 + 2
    else
      let p1 := rfindP (cs "\n") chunk
      if gtPoint7 p1 maxLength then p1 + 1
      else
        let p2 := rfindP (cs " ") chunk
        if ¬ gtPoint7 p2 maxLength then (maxLength : Int) else p2 + 1
  let splitPos := adjustSplitForHtmlTags remaining sp0.toNat
  let unclosed := getUnclosedTags (remaining.take splitPos)
  let chunkText := rstripP (remaining.take splitPos) ++ closeTagsStr unclosed
  let rem2 := lstripP (remaining.drop splitPos)
  let rem3 := if unclosed ≠ [] ∧ rem2 ≠ [] then openTagsStr unclosed ++ rem2 else rem2
  (chunkText, rem3)

/-- The chunking loop of `_split_long_message`, with fuel; `none` means the
fuel ran out, i.e. the Python loop has not terminated within that many
iterations. -/
def splitLoop (maxLength : Nat) : Nat → List (List Char) → List Char → Option (List (List Char))
  | 0, _, _ => none
  | fuel + 1, chunks, remaining =>
    if remaining.length > maxLength then
      let step := splitStep remaining maxLength
      splitLoop maxLength fuel (chunks ++ [step.1]) step.2
    else
      some (chunks ++ if remaining ≠ [] then [remaining] else [])

/-- `_split_long_message(text, max_length)`. -/
def splitLongMessage (fuel : Nat) (text : List Char) (maxLength : Nat) :
    Option (List (List Char)) :=
  if text.length ≤ maxLength then some [text]
  else splitLoop maxLength fuel [] text

/-! ### The renderer `_markdown_to_telegram_html`

Each `re.sub` pass of the source is embedded as a scanner that walks the
text left to right exactly as `re` does: at every position it attempts the
(deterministic, as analysed per pattern) leftmost match, replaces it and
continues after the match, otherwise it emits one character and moves on.
-/

/-- Decimal digits of a number, for building placeholder strings. -/
def natToCharsAux : Nat → Nat → List Char
  | 0, _ => []
  | fuel + 1, n =>
    if n < 10 then [Nat.digitChar n]
    else natToCharsAux fuel (n / 10) ++ [Nat.digitChar (n % 10)]

/-- Decimal representation of a `Nat` as characters. -/
def natToChars (n : Nat) : List Char := natToCharsAux (n + 1) n

/-- The placeholder `"\x00CB{i}\x00"` protecting fenced code block `i`. -/
def cbPlaceholder (i : Nat) : List Char :=
  '\x00' :: 'C' :: 'B' :: natToChars i ++ ['\x00']

/-- The placeholder `"\x00IC{i}\x00"` protecting inline code span `i`. -/
def icPlaceholder (i : Nat) : List Char :=
  '\x00' :: 'I' :: 'C' :: natToChars i ++ ['\x00']

/-- Split `s` at the first occurrence of `pat`: the part before and the part
after the occurrence. -/
def splitAtSubAux (pat : List Char) : Nat → List Char → Option (List Char × List Char)
  | 0, _ => none
  | fuel + 1, s =>
    if leadsWith pat s then some ([], s.drop pat.length)
    else
      match s with
      | [] => none
      | c :: rest => (splitAtSubAux pat fuel rest).map (fun p => (c :: p.1, p.2))

/-- First-occurrence split wrapper with sufficient fuel. -/
def splitAtSub (pat s : List Char) : Option (List Char × List Char) :=
  splitAtSubAux pat (s.length + 1) s

/-- One match of ```` ```[\w]*\n?([\s\S]*?)``` ```` at the head of `s`:
the captured block content and the rest after the closing fence.  The lazy
group simply runs to the first closing fence. -/
def fencedSplit (s : List Char) : Option (List Char × List Char) :=
  if leadsWith [btick, btick, btick] s then
    let t := s.drop 3
    let (_lang, t2) := t.span isWordChar
    let t3 := match t2 with
      | '\n' :: u => u
      | _ => t2
    splitAtSub [btick, btick, btick] t3
  else none

/-- Pass 1 of the renderer: extract fenced code blocks, replacing each with
its indexed placeholder (the `re.sub` with a saving callback). -/
def extractCodeBlocksAux : Nat → List Char → List (List Char) → List Char × List (List Char)
  | 0, s, acc => (s, acc)
  | fuel + 1, s, acc =>
    match s with
    | [] => ([], acc)
    | c :: rest =>
      match fencedSplit s with
      | some (content, after) =>
        let r := extractCodeBlocksAux fuel after (acc ++ [content])
        (cbPlaceholder acc.length ++ r.1, r.2)
      | none =>
        let r := extractCodeBlocksAux fuel rest acc
        (c :: r.1, r.2)

/-- Pass 1 wrapper. -/
def extractCodeBlocks (s : List Char) : List Char × List (List Char) :=
  extractCodeBlocksAux (s.length + 1) s []

/-- One match of `` `([^`]+)` `` at the head of `s`. -/
def inlineSplit (s : List Char) : Option (List Char × List Char) :=
  match s with
  | c :: t =>
    if c = btick then
      match splitAtSub [btick] t with
      | some (content, rest) => if content = [] then none else some (content, rest)
      | none => none
    else none
  | [] => none

/-- Pass 2 of the renderer: extract inline code spans into placeholders. -/
def extractInlineCodesAux : Nat → List Char → List (List Char) → List Char × List (List Char)
  | 0, s, acc => (s, acc)
  | fuel + 1, s, acc =>
    match s with
    | [] => ([], acc)
    | c :: rest =>
      match inlineSplit s with
      | some (content, after) =>
        let r := extractInlineCodesAux fuel after (acc ++ [content])
        (icPlaceholder acc.length ++ r.1, r.2)
      | none =>
        let r := extractInlineCodesAux fuel rest acc
        (c :: r.1, r.2)

/-- Pass 2 wrapper. -/
def extractInlineCodes (s : List Char) : List Char × List (List Char) :=
  extractInlineCodesAux (s.length + 1) s []

/-- One match of `^#{1,6}\s+(.+)$` (MULTILINE) at a line-start position:
the captured title and the rest after the `$` boundary.  `\s+` is greedy
and may cross newlines; when the whitespace run reaches the end of the
string the regex backtracks so that the group becomes the final
non-newline whitespace character of the run. -/
def tryHeader (s : List Char) : Option (List Char × List Char) :=
  let (hashes, t) := s.span (fun c => c = '#')
  if hashes.length < 1 ∨ 6 < hashes.length then none
  else
    let (ws, u) := t.span pyIsSpace
    if ws = [] then none
    else
      match u with
      | _ :: _ =>
        let (bgroup, after) := u.span (fun c => c ≠ '\n')
        some (bgroup, after)
      | [] =>
        let k := (ws.reverse.takeWhile (fun c => c = '\n')).length
        match (ws.take (ws.length - k)).getLast? with
        | some c => if 2 ≤ ws.length - k then some ([c], ws.drop (ws.length - k)) else none
        | none => none

/-- Pass 3 of the renderer: strip heading markers, line by line.  The
boolean tracks whether the current position is a `^` position. -/
def headersAux : Nat → Bool → List Char → List Char
  | 0, _, s => s
  | fuel + 1, atStart, s =>
    match s with
    | [] => []
    | c :: rest =>
      match if atStart then tryHeader s else none with
      | some (bgroup, after) => bgroup ++ headersAux fuel false after
      | none => c :: headersAux fuel (c = '\n') rest

/-- Pass 3 wrapper. -/
def headersPass (s : List Char) : List Char := headersAux (s.length + 1) true s

/-- One match of `^>\s*(.*)$` (MULTILINE) at a line-start position: the
captured text and the rest after the `$` boundary.  `\s*` greedily eats
whitespace (crossing newlines) and the group is the remainder of the line
it lands in. -/
def tryQuote (s : List Char) : Option (List Char × List Char) :=
  match s with
  | '>' :: t =>
    let (_, u) := t.span pyIsSpace
    let (bgroup, after) := u.span (fun c => c ≠ '\n')
    some (bgroup, after)
  | _ => none

/-- Pass 4 of the renderer: strip blockquote markers. -/
def quotesAux : Nat → Bool → List Char → List Char
  | 0, _, s => s
  | fuel + 1, atStart, s =>
    match s with
    | [] => []
    | c :: rest =>
      match if atStart then tryQuote s else none with
      | some (bgroup, after) => bgroup ++ quotesAux fuel false after
      | none => c :: quotesAux fuel (c = '\n') rest

/-- Pass 4 wrapper. -/
def quotesPass (s : List Char) : List Char := quotesAux (s.length + 1) true s

/-- Python `str.replace(old, new)` for nonempty `old` (every use in the
source has a nonempty pattern): leftmost, non-overlapping. -/
def pyReplaceAux (old new : List Char) : Nat → List Char → List Char
  | 0, s => s
  | fuel + 1, s =>
    match s with
    | [] => []
    | c :: rest =>
      if leadsWith old s then new ++ pyReplaceAux old new fuel (s.drop old.length)
      else c :: pyReplaceAux old new fuel rest

/-- `str.replace` wrapper with sufficient fuel. -/
def pyReplace (s old new : List Char) : List Char :=
  pyReplaceAux old new (s.length + 1) s

/-- Pass 5 of the renderer (also used on restored code content): the three
chained replaces escaping `&`, `<`, `>`. -/
def escapeHtml (s : List Char) : List Char :=
  pyReplace (pyReplace (pyReplace s (cs "&") (cs "&amp;")) (cs "<") (cs "&lt;")) (cs ">") (cs "&gt;")

/-- One match of `\[([^\]]+)\]\(([^)]+)\)` at the head of `s`: link text,
url, and the rest. -/
def tryLink (s : List Char) : Option (List Char × List Char × List Char) :=
  match s with
  | '[' :: t =>
    let (txt, t2) := t.span (fun c => c ≠ ']')
    if txt = [] then none
    else
      match t2 with
      | ']' :: '(' :: u =>
        let (url, u2) := u.span (fun c => c ≠ ')')
        if url = [] then none
        else
          match u2 with
          | ')' :: rest => some (txt, url, rest)
          | _ => none
      | _ => none
  | _ => none

/-- Pass 6 of the renderer: links `[text](url)` to anchors. -/
def linksAux : Nat → List Char → List Char
  | 0, s => s
  | fuel + 1, s =>
    match s with
    | [] => []
    | c :: rest =>
      match tryLink s with
      | some (txt, url, after) =>
        cs "<a href=\"" ++ url ++ cs "\">" ++ txt ++ cs "</a>" ++ linksAux fuel after
      | none => c :: linksAux fuel rest

/-- Pass 6 wrapper. -/
def linksPass (s : List Char) : List Char := linksAux (s.length + 1) s

/-- The lazy group of `d(.+?)d`: the shortest nonempty run of non-newline
characters followed by the delimiter `d`; returns (content, rest after the
closing delimiter). -/
def lazyFind (d : List Char) : Nat → List Char → Option (List Char × List Char)
  | 0, _ => none
  | fuel + 1, s =>
    match s with
    | [] => none
    | c :: rest =>
      if c = '\n' then none
      else if leadsWith d rest then some ([c], rest.drop d.length)
      else (lazyFind d fuel rest).map (fun p => (c :: p.1, p.2))

/-- Passes 7 and 9 of the renderer: a two-character delimiter pair around a
lazy group (`\*\*(.+?)\*\*`, `__(.+?)__`, `~~(.+?)~~`), replaced by
`openTag` content `closeTag`. -/
def delimAux (d openTag closeTag : List Char) : Nat → List Char → List Char
  | 0, s => s
  | fuel + 1, s =>
    match s with
    | [] => []
    | c :: rest =>
      if leadsWith d s then
        match lazyFind d s.length (s.drop d.length) with
        | some (content, after) =>
          openTag ++ content ++ closeTag ++ delimAux d openTag closeTag fuel after
        | none => c :: delimAux d openTag closeTag fuel rest
      else c :: delimAux d openTag closeTag fuel rest

/-- Delimiter-pair pass wrapper. -/
def delimPass (d openTag closeTag s : List Char) : List Char :=
  delimAux d openTag closeTag (s.length + 1) s

/-- Pass 8 of the renderer: italic
`(?<![a-zA-Z0-9])_([^_]+)_(?![a-zA-Z0-9])`.  The `prev` argument is the
character immediately before the current position (for the lookbehind);
after a match, the character before the continuation point is the closing
underscore. -/
def italicAux : Nat → Option Char → List Char → List Char
  | 0, _, s => s
  | fuel + 1, prev, s =>
    match s with
    | [] => []
    | c :: rest =>
      let behindOk : Bool := match prev with
        | none => true
        | some p => ! isAsciiAlnum p
      if c = '_' && behindOk then
        let (content, t) := rest.span (fun d => d ≠ '_')
        match t with
        | '_' :: after =>
          let aheadOk : Bool := match after with
            | [] => true
            | a :: _ => ! isAsciiAlnum a
          if content ≠ [] && aheadOk then
            cs "<i>" ++ content ++ cs "</i>" ++ italicAux fuel (some '_') after
          else c :: italicAux fuel (some c) rest
        | _ => c :: italicAux fuel (some c) rest
      else c :: italicAux fuel (some c) rest

/-- Pass 8 wrapper. -/
def italicPass (s : List Char) : List Char := italicAux (s.length + 1) none s

/-- Pass 10 of the renderer: bullet markers `^[-*]\s+` to a bullet glyph.
`\s+` is greedy and may end in a newline, in which case the continuation
point is again a line start. -/
def bulletsAux : Nat → Bool → List Char → List Char
  | 0, _, s => s
  | fuel + 1, atStart, s =>
    match s with
    | [] => []
    | c :: rest =>
      if atStart ∧ (c = '-' ∨ c = '*') then
        let (ws, u) := rest.span pyIsSpace
        if ws ≠ [] then cs "• " ++ bulletsAux fuel (ws.getLast? = some '\n') u
        else c :: bulletsAux fuel (c = '\n') rest
      else c :: bulletsAux fuel (c = '\n') rest

/-- Pass 10 wrapper. -/
def bulletsPass (s : List Char) : List Char := bulletsAux (s.length + 1) true s

/-- Passes 11 and 12 of the renderer: restore each saved code `i` by
replacing its placeholder with the escaped content wrapped in tags. -/
def restoreAux (mk : Nat → List Char) (before afterT : List Char) :
    Nat → List (List Char) → List Char → List Char
  | _, [], t => t
  | i, code :: rest, t =>
    restoreAux mk before afterT (i + 1) rest
      (pyReplace t (mk i) (before ++ escapeHtml code ++ afterT))

/-- `_markdown_to_telegram_html(text)`. -/
def markdownToTelegramHtml (text : List Char) : List Char :=
  if text = [] then []
  else
    let e1 := extractCodeBlocks text
    let e2 := extractInlineCodes e1.1
    let t3 := headersPass e2.1
    let t4 := quotesPass t3
    let t5 := escapeHtml t4
    let t6 := linksPass t5
    let t7 := delimPass (cs "**") (cs "<b>") (cs "</b>") t6
    let t8 := delimPass (cs "__") (cs "<b>") (cs "</b>") t7
    let t9 := italicPass t8
    let t10 := delimPass (cs "~~") (cs "<s>") (cs "</s>") t9
    let t11 := bulletsPass t10
    let t12 := restoreAux icPlaceholder (cs "<code>") (cs "</code>") 0 e2.2 t11
    restoreAux cbPlaceholder (cs "<pre><code>") (cs "</code></pre>") 0 e1.2 t12

/-! ### Backoff durations in `TelegramChannel.start`

On a `Conflict` the wait is `min(30 * (2 ** (consecutive_failures - 1)), 600)`;
on any other exception it is `min(2 ** consecutive_failures, 300)`.  Both
are reached only after the counter was incremented, so `n ≥ 1`. -/

/-- Conflict backoff for consecutive-failure count `n`. -/
def conflictBackoff (n : Nat) : Nat := min (30 * 2 ^ (n - 1)) 600

/-- Generic-error backoff for consecutive-failure count `n`. -/
def genericBackoff (n : Nat) : Nat := min (2 ^ n) 300

/-! ### Python `int(str)` parsing, used by `send` on `msg.chat_id` -/

/-- Digits of an integer literal after the first digit: single underscores
are allowed between digits. -/
def pyIntAux : List Char → Nat → Option Nat
  | [], acc => some acc
  | '_' :: c :: rest, acc =>
    if c.isDigit then pyIntAux rest (acc * 10 + (c.toNat - '0'.toNat)) else none
  | '_' :: [], _ => none
  | c :: rest, acc =>
    if c.isDigit then pyIntAux rest (acc * 10 + (c.toNat - '0'.toNat)) else none

/-- Python `int(s)` for a decimal string: surrounding whitespace and a
leading sign are allowed; `none` models the `ValueError`.  (ASCII digits;
the unicode digits Python additionally accepts do not occur here.) -/
def pyParseInt (s : List Char) : Option Int :=
  let t := stripP s
  let signed : Bool × List Char :=
    match t with
    | '+' :: r => (false, r)
    | '-' :: r => (true, r)
    | _ => (false, t)
  match signed.2 with
  | c :: rest =>
    if c.isDigit then
      (pyIntAux rest (c.toNat - '0'.toNat)).map
        (fun n => if signed.1 then -(n : Int) else (n : Int))
    else none
  | [] => none

/-! ### The outbound send path

`TelegramChannel.send` and `_safe_send_message` are embedded as pure
functions that produce the ordered trace of observable actions (typing
cancellation, platform `send_message` calls, log lines).  The platform is
an environment `env : Nat → Option (List Char)` giving, for the k-th
`send_message` call made while handling one outbound message, either
success (`none`) or the text of the exception it raises (`some e`). -/

/-- An observable effect of the send path. -/
inductive Action where
  | stopTyping (chatId : List Char)
  | sendMessage (chatId : Int) (text : List Char) (htmlMode : Bool)
  | logNotReady
  | logInvalidChatId
  | logSendFailed
  deriving DecidableEq

/-- The test `"parse" in msg or "entities" in msg or "tag" in msg` on the
lowercased exception text, from `_safe_send_message`. -/
def isParseErrorMsg (e : List Char) : Bool :=
  let m := e.map Char.toLower
  (splitAtSub (cs "parse") m).isSome || (splitAtSub (cs "entities") m).isSome ||
    (splitAtSub (cs "tag") m).isSome

/-- The notice text of the last-resort tier of `_safe_send_message`. -/
def errorNotice (chunkNum totalChunks : Nat) : List Char :=
  cs "⚠️ Failed to send message (chunk " ++ natToChars chunkNum ++ cs "/" ++
    natToChars totalChunks ++ cs "). Content may contain formatting issues."

/-- `_safe_send_message(chat_id, text, chunk_num, total_chunks)`: returns
the attempted platform calls, the next call index, and `some e` when the
exception `e` escapes (only non-markup first-tier failures re-raise). -/
def safeSendMessage (env : Nat → Option (List Char)) (k : Nat) (chatId : Int)
    (text : List Char) (chunkNum totalChunks : Nat) :
    List Action × Nat × Option (List Char) :=
  let a1 := Action.sendMessage chatId text true
  match env k with
  | none => ([a1], k + 1, none)
  | some e =>
    if isParseErrorMsg e then
      let a2 := Action.sendMessage chatId text false
      match env (k + 1) with
      | none => ([a1, a2], k + 2, none)
      | some _ =>
        let a3 := Action.sendMessage chatId (errorNotice chunkNum totalChunks) false
        ([a1, a2, a3], k + 3, none)
    else ([a1], k + 1, some e)

/-- The `for i, chunk in enumerate(message_chunks, 1)` loop in `send`:
an escaping exception from `_safe_send_message` aborts the loop. -/
def sendChunksAux (env : Nat → Option (List Char)) (chatId : Int) (total : Nat) :
    List (List Char) → Nat → Nat → List Action × Nat × Option (List Char)
  | [], _, k => ([], k, none)
  | c :: cs', i, k =>
    let r := safeSendMessage env k chatId c i total
    match r.2.2 with
    | some e => (r.1, r.2.1, some e)
    | none =>
      let r2 := sendChunksAux env chatId total cs' (i + 1) r.2.1
      (r.1 ++ r2.1, r2.2.1, r2.2.2)

/-- The channel state that `send` consults. -/
structure ChannelState where
  app : Bool
  polling : Bool
  deriving DecidableEq

/-- An outbound message. -/
structure OutboundMsg where
  chatId : List Char
  content : List Char
  deriving DecidableEq

/-- `TelegramChannel.send(msg)`: the ordered action trace together with a
flag that is `true` when an exception escapes `send` (it never does: every
failure is caught and logged).  `none` means the chunking loop inside ran
out of fuel, i.e. `_split_long_message` did not terminate. -/
def send (fuel : Nat) (env : Nat → Option (List Char)) (st : ChannelState)
    (msg : OutboundMsg) : Option (List Action × Bool) :=
  if ¬ (st.app ∧ st.polling) then some ([Action.logNotReady], false)
  else
    match pyParseInt msg.chatId with
    | none => some ([Action.stopTyping msg.chatId, Action.logInvalidChatId], false)
    | some chatId =>
      let html := markdownToTelegramHtml msg.content
      match splitLongMessage fuel html 4096 with
      | none => none
      | some chunks =>
        let r := sendChunksAux env chatId chunks.length chunks 1 0
        let tailActs : List Action :=
          match r.2.2 with
          | some _ => [Action.logSendFailed]
          | none => []
        some (Action.stopTyping msg.chatId :: r.1 ++ tailActs, false)

/-! ### Media filenames (`_get_extension` and `_on_message`) -/

/-- The `ext_map` MIME lookup of `_get_extension`. -/
def extMap (m : List Char) : Option (List Char) :=
  if m = cs "image/jpeg" then some (cs ".jpg")
  else if m = cs "image/png" then some (cs ".png")
  else if m = cs "image/gif" then some (cs ".gif")
  else if m = cs "audio/ogg" then some (cs ".ogg")
  else if m = cs "audio/mpeg" then some (cs ".mp3")
  else if m = cs "audio/mp4" then some (cs ".m4a")
  else none

/-- The `type_map.get(media_type, "")` fallback of `_get_extension`. -/
def typeMapGet (t : List Char) : List Char :=
  if t = cs "image" then cs ".jpg"
  else if t = cs "voice" then cs ".ogg"
  else if t = cs "audio" then cs ".mp3"
  else if t = cs "file" then []
  else []

/-- `_get_extension(media_type, mime_type)`; `mime_type` may be `None`, and
an empty string is falsy so it also skips the MIME lookup. -/
def getExtension (mediaType : List Char) (mimeType : Option (List Char)) : List Char :=
  match mimeType with
  | some m =>
    if m ≠ [] then
      match extMap m with
      | some e => e
      | none => typeMapGet mediaType
    else typeMapGet mediaType
  | none => typeMapGet mediaType

/-- The filename `f"{media_file.file_id[:16]}{ext}"` built in `_on_message`. -/
def storedMediaFilename (fileId mediaType : List Char) (mimeType : Option (List Char)) :
    List Char :=
  fileId.take 16 ++ getExtension mediaType mimeType

/-- Modelled from the spec wording of the claim: the extension is resolved
first from the declared MIME type via the MIME map, otherwise from the
media kind (image to .jpg, voice to .ogg, audio to .mp3, file to empty),
otherwise the empty string. -/
def extensionSpec (mediaType : List Char) (mimeType : Option (List Char)) : List Char :=
  match mimeType.bind extMap with
  | some e => e
  | none =>
    if mediaType = cs "image" then cs ".jpg"
    else if mediaType = cs "voice" then cs ".ogg"
    else if mediaType = cs "audio" then cs ".mp3"
    else if mediaType = cs "file" then []
    else []

/-! ### Typing-indicator tasks

`_start_typing`, `_stop_typing` and the typing part of `stop` operate on
`self._typing_tasks : dict[str, asyncio.Task]`.  The model keeps every task
ever created (with its chat and status) so that liveness of tasks that left
the map remains observable, plus the dict as an association list. -/

/-- Status of an asyncio task in the model: `done` covers a task that
finished on its own (`task.done()` is also true for `cancelled`). -/
inductive TStatus where
  | running
  | done
  | cancelled
  deriving DecidableEq

/-- The typing-task state: all created tasks, the `_typing_tasks` dict, and
the next fresh task id. -/
structure TypingState where
  tasks : List (Nat × List Char × TStatus)
  map : List (List Char × Nat)
  nextId : Nat
  deriving DecidableEq

/-- Dict lookup on the association list. -/
def lookupTask (c : List Char) : List (List Char × Nat) → Option Nat
  | [] => none
  | (k, v) :: r => if k = c then some v else lookupTask c r

/-- Dict `pop`: remove the entry for `c` (the first, and with nodup keys
the only, one). -/
def eraseKeyT (c : List Char) : List (List Char × Nat) → List (List Char × Nat)
  | [] => []
  | (k, v) :: r => if k = c then r else (k, v) :: eraseKeyT c r

/-- `task.cancel()` guarded by `not task.done()`: a running task with this
id becomes cancelled. -/
def cancelTask (i : Nat) (ts : List (Nat × List Char × TStatus)) :
    List (Nat × List Char × TStatus) :=
  ts.map (fun t => if t.1 = i ∧ t.2.2 = TStatus.running then (t.1, t.2.1, TStatus.cancelled) else t)

/-- `_stop_typing(chat_id)`: pop the chat entry and cancel its task if it
is not done. -/
def stopTypingOp (c : List Char) (s : TypingState) : TypingState :=
  match lookupTask c s.map with
  | none => { s with map := eraseKeyT c s.map }
  | some i => { s with map := eraseKeyT c s.map, tasks := cancelTask i s.tasks }

/-- `_start_typing(chat_id)`: cancel any existing task for the chat, then
create and register a fresh one. -/
def startTypingOp (c : List Char) (s : TypingState) : TypingState :=
  let s1 := stopTypingOp c s
  { tasks := s1.tasks ++ [(s1.nextId, c, TStatus.running)]
    map := (c, s1.nextId) :: s1.map
    nextId := s1.nextId + 1 }

/-- The typing part of `stop`: `for chat_id in list(self._typing_tasks):
self._stop_typing(chat_id)`. -/
def stopAllOp (s : TypingState) : TypingState :=
  (s.map.map Prod.fst).foldl (fun st c => stopTypingOp c st) s

/-- The data invariant of the typing-task structure: dict keys are unique,
task ids are unique and below the fresh counter, and every running task is
registered in the dict under its chat. -/
def TypingInv (s : TypingState) : Prop :=
  (s.map.map Prod.fst).Nodup ∧
  (s.tasks.map (fun t => t.1)).Nodup ∧
  (∀ t ∈ s.tasks, t.1 < s.nextId) ∧
  (∀ t ∈ s.tasks, t.2.2 = TStatus.running → lookupTask t.2.1 s.map = some t.1)

/-- The live (running) tasks recorded for a chat. -/
def liveTasksFor (c : List Char) (s : TypingState) : List (Nat × List Char × TStatus) :=
  s.tasks.filter (fun t => t.2.2 = TStatus.running ∧ t.2.1 = c)

instance : DecidablePred TypingInv := fun s => by
  unfold TypingInv; infer_instance

/-! ## Theorems about the claims -/

/-- The trace environment of the chunk-loop theorems: the very first
platform call raises a network error whose text is not markup-related,
every later call would succeed. -/
def envNetErr : Nat → Option (List Char) :=
  fun k => if k = 0 then some (cs "network timeout") else none

/-- C1: the claim says every chunk produced by `_split_long_message` has
length at most the limit, closing and reopening tags included.  The code
contradicts its own docstring (chunks that fit the limit): at input
`"<b>aaaaaaaaaaaaa"` with limit 10 the first chunk is the 10-character
window plus the appended closing tag, 14 characters in total. -/
theorem c1_chunk_exceeds_limit :
    splitLongMessage 20 (cs "<b>aaaaaaaaaaaaa") 10 =
      some [cs "<b>aaaaaaa</b>", cs "<b>aaaaaa"] ∧
    (cs "<b>aaaaaaa</b>").length = 14 ∧ 10 < (cs "<b>aaaaaaa</b>").length := by
  decide

/-- C2: the claim says `_split_long_message` always terminates because the
adjusted split position is at least 1.  At input `"<aaaaaaaaaaaa"` with
limit 10 the HTML-tag adjustment moves the split position to 0, the loop
consumes nothing, and the function diverges: no amount of fuel completes
it. -/
theorem c2_split_diverges :
    (∀ fuel, splitLongMessage fuel (cs "<aaaaaaaaaaaa") 10 = none) ∧
    adjustSplitForHtmlTags (cs "<aaaaaaaaaaaa") 10 = 0 := by
  constructor
  · intro fuel
    have key : ∀ f chunks, splitLoop 10 f chunks (cs "<aaaaaaaaaaaa") = none := by
      intro f
      induction f with
      | zero => intro chunks; rfl
      | succ n ih =>
        intro chunks
        have hstep : splitStep (cs "<aaaaaaaaaaaa") 10 = ([], cs "<aaaaaaaaaaaa") := by
          decide
        simp only [splitLoop, hstep]
        rw [if_pos (by decide)]
        exact ih _
    simp only [splitLongMessage]
    rw [if_neg (by decide)]
    exact key fuel []
  · decide

/-- C4: the claim says every opened tag in the renderer output has a
matching close.  The renderer contradicts its own contract of producing
Telegram-safe HTML: on `"**a [x](u**v)"` the bold pass matches across the
anchor attribute and the output has an opened `<b>` that is never closed
(the tag scanner that the repository itself uses reports it unclosed). -/
theorem c4_renderer_unbalanced :
    markdownToTelegramHtml (cs "**a [x](u**v)") = cs "<b>a <a href=\"u</b>v\">x</a>" ∧
    getUnclosedTags (markdownToTelegramHtml (cs "**a [x](u**v)")) = [cs "b"] := by
  decide

/-- C6: rendering the exact input of the scenario gives the exact output
of the scenario. -/
theorem c6_scenario_render :
    markdownToTelegramHtml (cs "**bold** and `code`") =
      cs "<b>bold</b> and <code>code</code>" := by
  decide

/-- C5: at every consecutive-failure count of at least 1 the conflict
backoff dominates the generic-error backoff, and each backoff is
non-decreasing in the count. -/
theorem c5_backoff_domination_monotone :
    ∀ n, 1 ≤ n →
      genericBackoff n ≤ conflictBackoff n ∧
      (∀ m, 1 ≤ m → m ≤ n →
        conflictBackoff m ≤ conflictBackoff n ∧ genericBackoff m ≤ genericBackoff n) := by
  intro n hn
  refine ⟨?_, ?_⟩
  · unfold genericBackoff conflictBackoff
    apply le_min
    · refine le_trans (min_le_left _ _) ?_
      have hsplit : 2 ^ n = 2 ^ (n - 1) * 2 := by
        rw [← pow_succ, Nat.sub_add_cancel hn]
      rw [hsplit, Nat.mul_comm 30 _]
      exact Nat.mul_le_mul_left _ (by norm_num)
    · exact le_trans (min_le_right _ _) (by norm_num)
  · intro m _ hmn
    constructor
    · exact min_le_min
        (Nat.mul_le_mul_left _ (Nat.pow_le_pow_right (by norm_num) (Nat.sub_le_sub_right hmn 1)))
        le_rfl
    · exact min_le_min (Nat.pow_le_pow_right (by norm_num) hmn) le_rfl

/-- Witness for C5 at the concrete count 3 with earlier count 2. -/
theorem c5_backoff_witness :
    genericBackoff 3 ≤ conflictBackoff 3 ∧
    conflictBackoff 2 ≤ conflictBackoff 3 ∧ genericBackoff 2 ≤ genericBackoff 3 := by
  refine ⟨(c5_backoff_domination_monotone 3 (by norm_num)).1, ?_, ?_⟩
  · exact ((c5_backoff_domination_monotone 3 (by norm_num)).2 2 (by norm_num) (by norm_num)).1
  · exact ((c5_backoff_domination_monotone 3 (by norm_num)).2 2 (by norm_num) (by norm_num)).2

/-- C3 counterexample: with two chunks and a first-tier failure whose text
is not markup-related, the loop records only the single HTML attempt of
the first chunk and re-raises; the second chunk is never attempted, so the
claim that every subsequent chunk is still attempted is false. -/
theorem c3_counterexample :
    sendChunksAux envNetErr 5 2 [cs "alpha", cs "beta"] 1 0 =
      ([Action.sendMessage 5 (cs "alpha") true], 1, some (cs "network timeout")) ∧
    isParseErrorMsg (cs "network timeout") = false := by
  decide

/-- C3 (amended): when the send of a chunk fails with an error not
recognized as markup-related, that chunk is not retried as plain text and
the exception escapes the chunk loop, so the remaining chunks of the same
message are not attempted; `send` catches the escaped exception, only logs
it, and returns normally.  The first clause states the chunk loop from an
arbitrary position and call counter; the second states `send` end to end:
its whole trace is the typing cancellation, the single HTML attempt of the
failing chunk, and the failure log line. -/
theorem c3_nonparse_failure_aborts (env : Nat → Option (List Char)) (e : List Char)
    (hnp : isParseErrorMsg e = false) :
    (∀ (k : Nat) (chatId : Int) (total i : Nat) (c : List Char)
        (rest : List (List Char)), env k = some e →
      sendChunksAux env chatId total (c :: rest) i k =
        ([Action.sendMessage chatId c true], k + 1, some e)) ∧
    (∀ (fuel : Nat) (st : ChannelState) (msg : OutboundMsg) (cid : Int)
        (c : List Char) (rest : List (List Char)),
      st.app = true → st.polling = true → pyParseInt msg.chatId = some cid →
      splitLongMessage fuel (markdownToTelegramHtml msg.content) 4096 =
        some (c :: rest) →
      env 0 = some e →
      send fuel env st msg =
        some ([Action.stopTyping msg.chatId, Action.sendMessage cid c true,
               Action.logSendFailed], false)) := by
  constructor
  · intro k chatId total i c rest henv
    simp [sendChunksAux, safeSendMessage, henv, hnp]
  · intro fuel st msg cid c rest ha hp hcid hchunks henv0
    have h1 : sendChunksAux env cid (c :: rest).length (c :: rest) 1 0 =
        ([Action.sendMessage cid c true], 1, some e) := by
      simp [sendChunksAux, safeSendMessage, henv0, hnp]
    rw [List.length_cons] at h1
    unfold send
    simp [ha, hp, hcid, hchunks, h1]

/-- Witness for C3 (amended): both clauses at concrete inputs, the chunk
loop at the single chunk `"x"` and `send` end to end on an outbound message
to chat 5 whose content renders and splits to one chunk. -/
theorem c3_nonparse_witness :
    isParseErrorMsg (cs "network timeout") = false ∧
    sendChunksAux envNetErr 7 1 [cs "x"] 1 0 =
      ([Action.sendMessage 7 (cs "x") true], 1, some (cs "network timeout")) ∧
    send 20 envNetErr ⟨true, true⟩ ⟨cs "5", cs "hello"⟩ =
      some ([Action.stopTyping (cs "5"), Action.sendMessage 5 (cs "hello") true,
             Action.logSendFailed], false) :=
  ⟨by decide,
   (c3_nonparse_failure_aborts envNetErr (cs "network timeout") (by decide)).1
     0 7 1 1 (cs "x") [] (by decide),
   (c3_nonparse_failure_aborts envNetErr (cs "network timeout") (by decide)).2
     20 ⟨true, true⟩ ⟨cs "5", cs "hello"⟩ 5 (cs "hello") [] rfl rfl (by decide)
     (by decide) (by decide)⟩

/-- C7: when the application handle is absent or polling has not started,
`send` only logs the refusal: it returns normally and performs no platform
call and no other side effect. -/
theorem c7_send_refused_when_not_ready (fuel : Nat) (env : Nat → Option (List Char))
    (st : ChannelState) (msg : OutboundMsg) (h : st.app = false ∨ st.polling = false) :
    send fuel env st msg = some ([Action.logNotReady], false) := by
  unfold send
  rcases h with h | h <;> simp [h]

/-- Witness for C7 with an absent application handle. -/
theorem c7_send_refused_witness :
    send 0 (fun _ => none) ⟨false, true⟩ ⟨cs "1", cs "hi"⟩ =
      some ([Action.logNotReady], false) :=
  c7_send_refused_when_not_ready 0 (fun _ => none) ⟨false, true⟩ ⟨cs "1", cs "hi"⟩
    (Or.inl rfl)

/-- C10: when the chat id does not parse as an integer, `send` cancels that
chat's typing task, logs the invalid chat id, and returns normally without
any platform call. -/
theorem c10_send_invalid_chat_id (fuel : Nat) (env : Nat → Option (List Char))
    (st : ChannelState) (msg : OutboundMsg) (ha : st.app = true)
    (hp : st.polling = true) (hbad : pyParseInt msg.chatId = none) :
    send fuel env st msg =
      some ([Action.stopTyping msg.chatId, Action.logInvalidChatId], false) := by
  unfold send
  simp [ha, hp, hbad]

/-- Witness for C10 at the unparsable chat id `"abc"`. -/
theorem c10_send_invalid_witness :
    send 3 (fun _ => none) ⟨true, true⟩ ⟨cs "abc", cs "hello"⟩ =
      some ([Action.stopTyping (cs "abc"), Action.logInvalidChatId], false) :=
  c10_send_invalid_chat_id 3 (fun _ => none) ⟨true, true⟩ ⟨cs "abc", cs "hello"⟩
    rfl rfl (by decide)

/-- C9: the stored media filename is the first 16 characters of the file id
followed by the extension resolved first from the MIME map, otherwise from
the media kind, otherwise empty — the code agrees with the resolution
order stated by the claim on every input. -/
theorem c9_media_filename (fileId mediaType : List Char)
    (mimeType : Option (List Char)) :
    storedMediaFilename fileId mediaType mimeType =
      fileId.take 16 ++ extensionSpec mediaType mimeType := by
  unfold storedMediaFilename getExtension extensionSpec
  cases mimeType with
  | none => rfl
  | some m =>
    by_cases hm : m = []
    · subst hm
      have : extMap [] = none := by decide
      simp [this, typeMapGet]
    · simp only [Option.bind_eq_bind, Option.some_bind, hm, ne_eq,
        not_false_iff, if_true]
      cases h : extMap m with
      | none => simp [h, typeMapGet]
      | some e => simp [h]

/-! ### Lemmas and theorems for the typing-task invariant (C8) -/

theorem lookupTask_eq_none_of_not_mem (c : List Char) (m : List (List Char × Nat))
    (h : c ∉ m.map Prod.fst) : lookupTask c m = none := by
  induction m with
  | nil => rfl
  | cons e r ih =>
    simp only [List.map_cons, List.mem_cons, not_or] at h
    obtain ⟨e1, e2⟩ := e
    simp only [lookupTask]
    rw [if_neg (fun he => h.1 he.symm)]
    exact ih h.2

theorem eraseKeyT_sublist (c : List Char) (m : List (List Char × Nat)) :
    (eraseKeyT c m).Sublist m := by
  induction m with
  | nil => simp [eraseKeyT]
  | cons e r ih =>
    obtain ⟨e1, e2⟩ := e
    simp only [eraseKeyT]
    by_cases h : e1 = c
    · rw [if_pos h]; exact (List.Sublist.refl r).cons _
    · rw [if_neg h]; exact ih.cons₂ _

theorem keys_eraseKeyT_nodup (c : List Char) (m : List (List Char × Nat))
    (h : (m.map Prod.fst).Nodup) : ((eraseKeyT c m).map Prod.fst).Nodup :=
  ((eraseKeyT_sublist c m).map Prod.fst).nodup h

theorem not_mem_keys_eraseKeyT_self (c : List Char) (m : List (List Char × Nat))
    (h : (m.map Prod.fst).Nodup) : c ∉ (eraseKeyT c m).map Prod.fst := by
  induction m with
  | nil => simp [eraseKeyT]
  | cons e r ih =>
    obtain ⟨e1, e2⟩ := e
    simp only [List.map_cons, List.nodup_cons] at h
    simp only [eraseKeyT]
    by_cases he : e1 = c
    · rw [if_pos he]
      subst he
      intro hc
      exact h.1 hc
    · rw [if_neg he]
      simp only [List.map_cons, List.mem_cons, not_or]
      exact ⟨fun hc => he hc.symm, ih h.2⟩

theorem lookupTask_eraseKeyT_self (c : List Char) (m : List (List Char × Nat))
    (h : (m.map Prod.fst).Nodup) : lookupTask c (eraseKeyT c m) = none :=
  lookupTask_eq_none_of_not_mem c _ (not_mem_keys_eraseKeyT_self c m h)

theorem lookupTask_eraseKeyT_ne (c c' : List Char) (m : List (List Char × Nat))
    (h : c' ≠ c) : lookupTask c' (eraseKeyT c m) = lookupTask c' m := by
  induction m with
  | nil => rfl
  | cons e r ih =>
    obtain ⟨e1, e2⟩ := e
    simp only [eraseKeyT, lookupTask]
    by_cases he : e1 = c
    · rw [if_pos he]
      rw [if_neg (fun hc : e1 = c' => h (hc ▸ he ▸ rfl))]
    · rw [if_neg he]
      simp only [lookupTask]
      by_cases he' : e1 = c'
      · rw [if_pos he', if_pos he']
      · rw [if_neg he', if_neg he']
        exact ih


theorem cancelTask_map_fst (i : Nat) (ts : List (Nat × List Char × TStatus)) :
    (cancelTask i ts).map (fun t => t.1) = ts.map (fun t => t.1) := by
  induction ts with
  | nil => rfl
  | cons t r ih =>
    simp only [cancelTask, List.map_cons] at *
    by_cases h : t.1 = i ∧ t.2.2 = TStatus.running
    · rw [if_pos h]; simp [ih]
    · rw [if_neg h]; simp [ih]

theorem mem_cancelTask_running (i : Nat) (ts : List (Nat × List Char × TStatus))
    (t' : Nat × List Char × TStatus) (h : t' ∈ cancelTask i ts)
    (hr : t'.2.2 = TStatus.running) : t' ∈ ts ∧ t'.1 ≠ i := by
  simp only [cancelTask, List.mem_map] at h
  obtain ⟨t, ht, heq⟩ := h
  by_cases hc : t.1 = i ∧ t.2.2 = TStatus.running
  · rw [if_pos hc] at heq
    subst heq
    simp at hr
  · rw [if_neg hc] at heq
    subst heq
    refine ⟨ht, fun hi => hc ⟨hi, hr⟩⟩

theorem stopTypingOp_nextId (c : List Char) (s : TypingState) :
    (stopTypingOp c s).nextId = s.nextId := by
  unfold stopTypingOp
  cases lookupTask c s.map <;> rfl

theorem stopTypingOp_map (c : List Char) (s : TypingState) :
    (stopTypingOp c s).map = eraseKeyT c s.map := by
  unfold stopTypingOp
  cases lookupTask c s.map <;> rfl

theorem stopTypingOp_inv (c : List Char) (s : TypingState) (h : TypingInv s) :
    TypingInv (stopTypingOp c s) := by
  obtain ⟨hkeys, hids, hbound, hmain⟩ := h
  cases hl : lookupTask c s.map with
  | none =>
    simp only [stopTypingOp, hl]
    refine ⟨keys_eraseKeyT_nodup c s.map hkeys, hids, hbound, ?_⟩
    intro t ht hr
    have hlk := hmain t ht hr
    by_cases hc : t.2.1 = c
    · rw [hc] at hlk; rw [hl] at hlk; exact absurd hlk (by simp)
    · rw [lookupTask_eraseKeyT_ne c t.2.1 s.map hc]; exact hlk
  | some i =>
    simp only [stopTypingOp, hl]
    refine ⟨keys_eraseKeyT_nodup c s.map hkeys, ?_, ?_, ?_⟩
    · rw [cancelTask_map_fst]; exact hids
    · intro t ht
      simp only [cancelTask, List.mem_map] at ht
      obtain ⟨t0, ht0, heq⟩ := ht
      by_cases hc : t0.1 = i ∧ t0.2.2 = TStatus.running
      · rw [if_pos hc] at heq; subst heq; exact hbound t0 ht0
      · rw [if_neg hc] at heq; subst heq; exact hbound t0 ht0
    · intro t ht hr
      obtain ⟨htm, hne⟩ := mem_cancelTask_running i s.tasks t ht hr
      have hlk := hmain t htm hr
      by_cases hc : t.2.1 = c
      · rw [hc, hl] at hlk
        exact absurd (Option.some_injective _ hlk).symm hne
      · rw [lookupTask_eraseKeyT_ne c t.2.1 s.map hc]; exact hlk

theorem startTypingOp_inv (c : List Char) (s : TypingState) (h : TypingInv s) :
    TypingInv (startTypingOp c s) := by
  have h1 := stopTypingOp_inv c s h
  obtain ⟨hkeys1, hids1, hbound1, hmain1⟩ := h1
  have hmapnone : lookupTask c (stopTypingOp c s).map = none := by
    rw [stopTypingOp_map]
    exact lookupTask_eraseKeyT_self c s.map h.1
  have hcnotmem : c ∉ (stopTypingOp c s).map.map Prod.fst := by
    rw [stopTypingOp_map]
    exact not_mem_keys_eraseKeyT_self c s.map h.1
  unfold startTypingOp
  refine ⟨?_, ?_, ?_, ?_⟩
  · simp only [List.map_cons, List.nodup_cons]
    exact ⟨hcnotmem, hkeys1⟩
  · have hmapped : ((stopTypingOp c s).tasks ++
        [((stopTypingOp c s).nextId, c, TStatus.running)]).map (fun t => t.1) =
        (stopTypingOp c s).tasks.map (fun t => t.1) ++ [(stopTypingOp c s).nextId] := by
      simp
    rw [hmapped, List.nodup_append]
    refine ⟨hids1, List.nodup_singleton _, ?_⟩
    intro a ha
    simp only [List.mem_singleton]
    intro hb
    subst hb
    simp only [List.mem_map] at ha
    obtain ⟨t, ht, hta⟩ := ha
    have := hbound1 t ht
    rw [hta] at this
    exact absurd this (lt_irrefl _)
  · intro t ht
    simp only [List.mem_append, List.mem_singleton] at ht
    rcases ht with ht | ht
    · exact Nat.lt_succ_of_lt (hbound1 t ht)
    · subst ht; exact Nat.lt_succ_self _
  · intro t ht hr
    simp only [List.mem_append, List.mem_singleton] at ht
    rcases ht with ht | ht
    · have hlk := hmain1 t ht hr
      have hc : t.2.1 ≠ c := by
        intro hc
        rw [hc, hmapnone] at hlk
        exact absurd hlk (by simp)
      simp only [lookupTask]
      rw [if_neg (fun he : c = t.2.1 => hc he.symm)]
      exact hlk
    · subst ht
      simp [lookupTask]


theorem foldl_stopTypingOp_inv (keys : List (List Char)) (s : TypingState)
    (h : TypingInv s) : TypingInv (keys.foldl (fun st c => stopTypingOp c st) s) := by
  induction keys generalizing s with
  | nil => exact h
  | cons k r ih => exact ih _ (stopTypingOp_inv k s h)

theorem stopAllOp_inv (s : TypingState) (h : TypingInv s) : TypingInv (stopAllOp s) :=
  foldl_stopTypingOp_inv _ s h

theorem stopAllOp_map_nil (s : TypingState) : (stopAllOp s).map = [] := by
  suffices key : ∀ (m : List (List Char × Nat)) (s : TypingState), s.map = m →
      ((m.map Prod.fst).foldl (fun st c => stopTypingOp c st) s).map = [] by
    exact key s.map s rfl
  intro m
  induction m with
  | nil =>
    intro s hs
    simpa using hs
  | cons e r ih =>
    intro s hs
    simp only [List.map_cons, List.foldl_cons]
    apply ih
    rw [stopTypingOp_map, hs]
    obtain ⟨e1, e2⟩ := e
    simp [eraseKeyT]

theorem stopAllOp_no_running (s : TypingState) (h : TypingInv s) :
    ∀ t ∈ (stopAllOp s).tasks, t.2.2 ≠ TStatus.running := by
  intro t ht hr
  have hinv := stopAllOp_inv s h
  have hlk := hinv.2.2.2 t ht hr
  rw [stopAllOp_map_nil] at hlk
  exact absurd hlk (by simp [lookupTask])

theorem liveTasksFor_le_one (c : List Char) (s : TypingState) (h : TypingInv s) :
    (liveTasksFor c s).length ≤ 1 := by
  obtain ⟨hkeys, hids, hbound, hmain⟩ := h
  have hmem : ∀ t ∈ liveTasksFor c s,
      t ∈ s.tasks ∧ t.2.2 = TStatus.running ∧ t.2.1 = c := by
    intro t ht
    simp only [liveTasksFor, List.mem_filter, decide_eq_true_eq] at ht
    exact ⟨ht.1, ht.2⟩
  cases hl : lookupTask c s.map with
  | none =>
    have hnil : liveTasksFor c s = [] := by
      cases hfe : liveTasksFor c s with
      | nil => rfl
      | cons t r =>
        have hm := hmem t (hfe ▸ List.mem_cons_self t r)
        have hlk := hmain t hm.1 hm.2.1
        rw [hm.2.2, hl] at hlk
        exact absurd hlk (by simp)
    simp [hnil]
  | some i =>
    have hall : ∀ x ∈ (liveTasksFor c s).map (fun t => t.1), x = i := by
      intro x hx
      simp only [List.mem_map] at hx
      obtain ⟨t, ht, hxt⟩ := hx
      have hm := hmem t ht
      have hlk := hmain t hm.1 hm.2.1
      rw [hm.2.2, hl] at hlk
      rw [← hxt]
      exact (Option.some_injective _ hlk).symm
    have hnd : ((liveTasksFor c s).map (fun t => t.1)).Nodup := by
      have hsub : (liveTasksFor c s).Sublist s.tasks := List.filter_sublist _
      exact (hsub.map _).nodup hids
    rcases hfe : liveTasksFor c s with _ | ⟨t1, _ | ⟨t2, r⟩⟩
    · simp
    · simp
    · exfalso
      rw [hfe] at hnd hall
      have h1 : t1.1 = i := hall t1.1 (List.mem_map_of_mem _ (List.mem_cons_self _ _))
      have h2 : t2.1 = i := hall t2.1
        (List.mem_map_of_mem _ (List.mem_cons_of_mem _ (List.mem_cons_self _ _)))
      simp only [List.map_cons, List.nodup_cons, List.mem_cons, not_or] at hnd
      exact hnd.1.1 (h1.trans h2.symm)

/-- The concrete typing state of the C8 witness: one running task for chat
7, registered in the map. -/
def typingSt0 : TypingState :=
  { tasks := [(0, cs "7", TStatus.running)], map := [(cs "7", 0)], nextId := 1 }

/-- C8: under the data invariant each chat has at most one live typing
task, and every operation on the typing-task map (`_start_typing`,
`_stop_typing`, and the typing part of `stop`) preserves the invariant;
`stop` moreover leaves no running task at all. -/
theorem c8_typing_tasks_invariant (s : TypingState) (h : TypingInv s) :
    (∀ c, (liveTasksFor c s).length ≤ 1) ∧
    (∀ c, TypingInv (startTypingOp c s)) ∧
    (∀ c, TypingInv (stopTypingOp c s)) ∧
    TypingInv (stopAllOp s) ∧
    (∀ t ∈ (stopAllOp s).tasks, t.2.2 ≠ TStatus.running) :=
  ⟨fun c => liveTasksFor_le_one c s h,
   fun c => startTypingOp_inv c s h,
   fun c => stopTypingOp_inv c s h,
   stopAllOp_inv s h,
   stopAllOp_no_running s h⟩

/-- Witness for C8 at a concrete one-task state. -/
theorem c8_typing_witness :
    TypingInv typingSt0 ∧
    (liveTasksFor (cs "7") typingSt0).length ≤ 1 ∧
    TypingInv (startTypingOp (cs "9") typingSt0) ∧
    TypingInv (stopAllOp typingSt0) :=
  have h : TypingInv typingSt0 := by decide
  ⟨h, (c8_typing_tasks_invariant typingSt0 h).1 (cs "7"),
    (c8_typing_tasks_invariant typingSt0 h).2.1 (cs "9"),
    (c8_typing_tasks_invariant typingSt0 h).2.2.2.1⟩

end Nanobot
